import Mathlib

/-!
Verification of the MemU n8n adapter core (retry/backoff, error
classification, batch executor, deletion confirmation, text normalization).

Shallow embedding conventions:
* An axios-style failure is a record with an optional HTTP response
  (`response`), a flag for whether a transport request was made (`request`),
  and a message.  Locally raised errors (e.g. `NodeOperationError`) have
  `response = none` and `request = false`.
* JS `a || b` on strings treats the empty string as falsy; this is embedded
  by `jsStrOr`.
* `Date.toISOString()` timestamps are impure clock reads and are omitted
  from the embedded output records; every other field is kept.
* Asynchronous code is embedded as explicit state passing: the retry wrapper
  returns, besides its outcome, the number of attempts made and the ordered
  list of delays slept; the batch executor is embedded both as a pure
  value-level function (`batchProcessInputData`) and as a launch schedule
  (`batchLaunchGroups`) recording which processor invocations are started
  together before any of them is awaited.
-/

/-- A JSON-ish value stored in an input record's `json` payload (only the
shapes the embedded functions inspect are distinguished). -/
inductive JsonVal where
  | bool (b : Bool)
  | str (s : String)
  | num (n : Int)
  | null
deriving DecidableEq

/-- The `data` carried by an HTTP error response: its status code and the
optional `message` / `detail` string fields the handlers read. -/
structure ApiResponse where
  status : Nat
  dataMessage : Option String
  dataDetail : Option String
deriving DecidableEq

/-- An axios-style error object: `response` is present when the server
answered with an error status, `request` is true when a transport-level
request was made (so `response = none ∧ request = true` is a network
failure, and `response = none ∧ request = false` is a locally raised
error such as `NodeOperationError`). -/
structure ApiErr where
  response : Option ApiResponse
  request : Bool
  message : String
deriving DecidableEq

/-- JS `a || b` for an optional string `a`: the empty string is falsy. -/
def jsStrOr (a : Option String) (b : String) : String :=
  match a with
  | some s => if s = "" then b else s
  | none => b

/-- Embedding of the error output object built by `createErrorOutput`
(src/unnamed/part_007:209): the spread `...originalData` plus the
`error: true` marker, `error_code` and `message` fields (the
`timestamp` clock read is omitted). -/
structure ErrOutput where
  originalData : List (String × JsonVal)
  errorCode : String
  message : String
deriving DecidableEq

/-- `createErrorOutput` (src/unnamed/part_007:209): `errorCode || 'UNKNOWN_ERROR'`. -/
def createErrorOutput (message : String) (originalData : List (String × JsonVal))
    (errorCode : Option String) : ErrOutput :=
  { originalData := originalData
    errorCode := jsStrOr errorCode "UNKNOWN_ERROR"
    message := message }

/-- `handleMemUError` (src/unnamed/part_007:240): classify an axios-style
failure into an n8n error output.  The switch has cases for 401, 403, 429,
404, 422 and exactly 500; every other responded status takes the `default`
branch; no response but a request is a network error; neither is the
fallback `Unexpected error` branch. -/
def handleMemUError (error : ApiErr) (originalData : List (String × JsonVal)) : ErrOutput :=
  match error.response with
  | some resp =>
    let message := jsStrOr resp.dataMessage error.message
    if resp.status = 401 then
      createErrorOutput "Authentication failed. Please check your API credentials."
        originalData (some "AUTH_FAILED")
    else if resp.status = 403 then
      createErrorOutput "Access denied. Insufficient permissions."
        originalData (some "ACCESS_DENIED")
    else if resp.status = 429 then
      createErrorOutput "Rate limit exceeded. Please try again later."
        originalData (some "RATE_LIMITED")
    else if resp.status = 404 then
      createErrorOutput "Resource not found. Please check the URL or ID."
        originalData (some "NOT_FOUND")
    else if resp.status = 422 then
      createErrorOutput ("Validation error: " ++ message)
        originalData (some "VALIDATION_ERROR")
    else if resp.status = 500 then
      createErrorOutput "MemU service error. Please try again later."
        originalData (some "SERVICE_ERROR")
    else
      createErrorOutput ("API Error (" ++ toString resp.status ++ "): " ++ message)
        originalData (some "API_ERROR")
  | none =>
    if error.request then
      createErrorOutput "Network error. Please check your connection and MemU service URL."
        originalData (some "NETWORK_ERROR")
    else
      createErrorOutput ("Unexpected error: " ++ error.message)
        originalData (some "UNEXPECTED_ERROR")

/-- `shouldRetryError` (src/unnamed/part_007:310), identical to the private
`MemUClient.shouldRetry` (MemUClient.ts:258): retry iff there is no
response, or the status is a 5xx. -/
def shouldRetryError (error : ApiErr) : Bool :=
  match error.response with
  | none => true
  | some resp => 500 ≤ resp.status && resp.status < 600

/-- `calculateBackoffDelay` (src/unnamed/part_007:323):
`min(baseDelay * 2^attempt + jitter, maxDelay)`, where the source draws
`jitter = Math.random() * 0.1 * exponentialDelay`; the draw is embedded as
an explicit `jitter` argument (0 models the jitter-free case). -/
def calculateBackoffDelay (jitter attempt baseDelay maxDelay : Nat) : Nat :=
  min (baseDelay * 2 ^ attempt + jitter) maxDelay

deriving instance DecidableEq for Except

/-- Result of one invocation of a retry wrapper: its outcome, the number of
times the wrapped operation was attempted, and the delays slept between
attempts, in order. -/
structure RetryRun (E T : Type) where
  outcome : Except E T
  attempts : Nat
  sleeps : List Nat
deriving DecidableEq

namespace MemUClient

/-- `MemUClient.handleApiError` (MemUClient.ts:222): the message of the
`Error` the client raises for a classified failure. -/
def handleApiError (error : ApiErr) : String :=
  match error.response with
  | some resp =>
    let message := jsStrOr resp.dataMessage error.message
    if resp.status = 401 then "Authentication failed. Please check your API credentials."
    else if resp.status = 403 then "Access denied. Insufficient permissions."
    else if resp.status = 429 then "Rate limit exceeded. Please try again later."
    else if resp.status = 404 then "Resource not found. Please check the URL or ID."
    else if resp.status = 422 then "Validation error: " ++ message
    else if resp.status = 500 then "MemU service error. Please try again later."
    else "API Error (" ++ toString resp.status ++ "): " ++ message
  | none =>
    if error.request then "Network error. Please check your connection and MemU service URL."
    else "Unexpected error: " ++ error.message

/-- Loop body of `MemUClient.withRetry` (MemUClient.ts:146).  The source
iterates `attempt` from 0 to `maxRetries`; here `remaining = maxRetries -
attempt`, so `remaining = 0` is the `attempt === maxRetries` terminal case.
`op k` is the outcome of the `k`-th call of the wrapped operation.  On a
retryable failure the loop sleeps the uncapped `baseDelay * 2^attempt`;
on a non-retryable failure it rethrows the error at once. -/
def retryGo {T : Type} (op : Nat → Except ApiErr T) (baseDelay attempt : Nat) :
    Nat → RetryRun ApiErr T
  | 0 =>
    match op attempt with
    | .ok v => ⟨.ok v, 1, []⟩
    | .error e => ⟨.error e, 1, []⟩
  | r + 1 =>
    match op attempt with
    | .ok v => ⟨.ok v, 1, []⟩
    | .error e =>
      if shouldRetryError e then
        let rest := retryGo op baseDelay (attempt + 1) r
        ⟨rest.outcome, rest.attempts + 1, baseDelay * 2 ^ attempt :: rest.sleeps⟩
      else
        ⟨.error e, 1, []⟩

/-- `MemUClient.withRetry` (MemUClient.ts:146) started at attempt 0. -/
def withRetry {T : Type} (op : Nat → Except ApiErr T) (maxRetries baseDelay : Nat) :
    RetryRun ApiErr T :=
  retryGo op baseDelay 0 maxRetries

end MemUClient

namespace UpdateNodeClient

/-- `MemUClient.handleApiError` of the update node
(MemUUpdateItem.node.ts:658): message strings differ slightly from the
shared client, and the 422 case stringifies `data?.detail || message`.
`jsonQuote` embeds `JSON.stringify` on a string (quoting plus escaping of
backslash, quote, newline, carriage return and tab). -/
def jsonQuote (s : String) : String :=
  "\"" ++ String.join (s.toList.map fun c =>
    if c = '\\' then "\\\\"
    else if c = '"' then "\\\""
    else if c = '\n' then "\\n"
    else if c = '\r' then "\\r"
    else if c = '\t' then "\\t"
    else String.singleton c) ++ "\""

def handleApiError (error : ApiErr) : String :=
  match error.response with
  | some resp =>
    let message := jsStrOr resp.dataMessage (jsStrOr resp.dataDetail error.message)
    if resp.status = 401 then "Authentication failed. Please check your API credentials."
    else if resp.status = 403 then "Access denied. Insufficient permissions."
    else if resp.status = 422 then
      "Validation error: " ++ jsonQuote (jsStrOr resp.dataDetail message)
    else if resp.status = 429 then "Rate limit exceeded. Please try again later."
    else if resp.status = 404 then "Resource not found."
    else if resp.status = 500 then "MemU service error. Please try again later."
    else "API Error (" ++ toString resp.status ++ "): " ++ message
  | none =>
    if error.request then "Network error. Please check your connection."
    else "Unexpected error: " ++ error.message

/-- Loop body of the update node's `withRetry` (MemUUpdateItem.node.ts:602):
as in the shared client, but the terminal and non-retryable throws are
classified through `handleApiError`, the retry condition is the configured
`retryConfig.retryCondition` (default `shouldRetry`, embedded as the `cond`
argument), and the backoff is capped:
`Math.min(delay * 2^attempt, maxDelay)`. -/
def retryGo {T : Type} (cond : ApiErr → Bool) (op : Nat → Except ApiErr T)
    (baseDelay maxDelay attempt : Nat) : Nat → RetryRun String T
  | 0 =>
    match op attempt with
    | .ok v => ⟨.ok v, 1, []⟩
    | .error e => ⟨.error (handleApiError e), 1, []⟩
  | r + 1 =>
    match op attempt with
    | .ok v => ⟨.ok v, 1, []⟩
    | .error e =>
      if cond e then
        let rest := retryGo cond op baseDelay maxDelay (attempt + 1) r
        ⟨rest.outcome, rest.attempts + 1,
          min (baseDelay * 2 ^ attempt) maxDelay :: rest.sleeps⟩
      else
        ⟨.error (handleApiError e), 1, []⟩

/-- The update node's `withRetry` with the default retry condition
`shouldRetry` (identical predicate to `shouldRetryError`), started at
attempt 0. -/
def withRetry {T : Type} (op : Nat → Except ApiErr T) (maxRetries baseDelay maxDelay : Nat) :
    RetryRun String T :=
  retryGo shouldRetryError op baseDelay maxDelay 0 maxRetries

end UpdateNodeClient

/-- One element of the array returned by `batchProcessInputData`
(src/unnamed/part_007:468): the success branch sets `result` and leaves
`error` absent, the handled-failure branch sets `error` and leaves `result`
absent.  `J` is the type of an input record's `json` payload, `R` the
processor's result type. -/
structure Outcome (J R : Type) where
  success : Bool
  result : Option R
  error : Option String
  originalData : J
  index : Nat
deriving DecidableEq

/-- `processItem` (src/unnamed/part_007:471): run the processor on record
`item` at global index `i`; a success is wrapped into a success outcome, a
failure is captured into a failure outcome when `continueOnError` holds and
is rethrown (`Except.error`) otherwise.  `proc i` is the result of the
processor invocation for index `i`. -/
def processItem {J R : Type} (proc : Nat → Except String R) (continueOnError : Bool)
    (item : J) (i : Nat) : Except String (Outcome J R) :=
  match proc i with
  | .ok r => .ok ⟨true, some r, none, item, i⟩
  | .error msg =>
    if continueOnError then .ok ⟨false, none, some msg, item, i⟩
    else .error msg

/-- Embedding of `Promise.all` over an already-started list of settled
promises: it resolves with the results in positional order, and rejects
(with the first rejection in list order, the deterministic rendering of
"first to reject") as soon as any element rejects. -/
def seqExcept {E A : Type} : List (Except E A) → Except E (List A)
  | [] => .ok []
  | .error e :: _ => .error e
  | .ok a :: rest =>
    match seqExcept rest with
    | .error e => .error e
    | .ok as => .ok (a :: as)

/-- Embedding of JS `array.map((x, i) => f i x)` starting the index at `j`. -/
def mapWithIndexFrom {A B : Type} (f : Nat → A → B) (j : Nat) : List A → List B
  | [] => []
  | a :: l => f j a :: mapWithIndexFrom f (j + 1) l

/-- Fuel-indexed body of the chunking loop
`for (let i = 0; i < inputData.length; i += maxConcurrency)
   chunks.push(inputData.slice(i, i + maxConcurrency))`
(src/unnamed/part_007:499).  The fuel is only there to make the recursion
structural; `chunksOf` supplies `l.length`, which is always enough when
`1 ≤ k`. -/
def chunksOfGo {A : Type} (k : Nat) : Nat → List A → List (List A)
  | _, [] => []
  | 0, _ :: _ => []
  | fuel + 1, a :: l => (a :: l).take k :: chunksOfGo k fuel ((a :: l).drop k)

/-- Consecutive chunks of size `k` of a list, as built by the source's
slice loop.  When `k = 0` the source loop never terminates; all theorems
about the chunked branch therefore assume `1 ≤ k`. -/
def chunksOf {A : Type} (k : Nat) (l : List A) : List (List A) :=
  chunksOfGo k l.length l

/-- The chunk loop of `batchProcessInputData` (src/unnamed/part_007:505):
process one chunk at a time with
`chunk.map((item, chunkIndex) => processItem(item, results.length + chunkIndex))`,
awaiting the whole chunk (`Promise.all`) before appending its results and
moving to the next chunk. -/
def batchChunksGo {J R : Type} (proc : Nat → Except String R) (continueOnError : Bool) :
    List (List J) → List (Outcome J R) → Except String (List (Outcome J R))
  | [], results => .ok results
  | chunk :: rest, results =>
    match seqExcept (mapWithIndexFrom
        (fun chunkIndex item => processItem proc continueOnError item
          (results.length + chunkIndex)) 0 chunk) with
    | .error e => .error e
    | .ok chunkResults => batchChunksGo proc continueOnError rest (results ++ chunkResults)

/-- `batchProcessInputData` (src/unnamed/part_007:460), value level.  The
option defaults are `preserveOrder = true`, `continueOnError = true`,
`maxConcurrency = 5`.  When `maxConcurrency === 1 || preserveOrder` the
source runs `Promise.all(inputData.map(processItem))`; otherwise it runs
the chunk loop.  (Note the first branch, despite its
`// Sequential processing` comment, starts every call at once — the
launch-order model below records that; positionally the two coincide.) -/
def batchProcessInputData {J R : Type} (inputData : List J) (proc : Nat → Except String R)
    (preserveOrder continueOnError : Bool) (maxConcurrency : Nat) :
    Except String (List (Outcome J R)) :=
  if maxConcurrency = 1 || preserveOrder then
    seqExcept (mapWithIndexFrom
      (fun i item => processItem proc continueOnError item i) 0 inputData)
  else
    batchChunksGo proc continueOnError (chunksOf maxConcurrency inputData) []

/-- Launch schedule of `batchProcessInputData` over `n` records: each group
lists the indices whose processor invocations are started together before
any of them is awaited.  In the `maxConcurrency === 1 || preserveOrder`
branch, `Promise.all(inputData.map(processItem))` calls the async
`processItem` on every record while building the array, so all `n`
invocations are in flight as one group; in the chunked branch each chunk
is one group and the `for`-loop awaits a group before starting the next. -/
def batchLaunchGroups (n maxConcurrency : Nat) (preserveOrder : Bool) : List (List Nat) :=
  if maxConcurrency = 1 || preserveOrder then [List.range n]
  else chunksOf maxConcurrency (List.range n)

/-- The outcome `processItem` produces for record `item` at global index
`i` when `continueOnError` is true: successes and captured failures alike
resolve to an outcome rather than a rejection. -/
def outcomeOf {J R : Type} (proc : Nat → Except String R) (item : J) (i : Nat) :
    Outcome J R :=
  match proc i with
  | .ok r => ⟨true, some r, none, item, i⟩
  | .error msg => ⟨false, none, some msg, item, i⟩

/-- The per-record outcomes of the batch executor on `items`, one per record
in input order, with global indices starting at `m`. -/
def outcomesFrom {J R : Type} (proc : Nat → Except String R) :
    Nat → List J → List (Outcome J R)
  | _, [] => []
  | m, item :: rest => outcomeOf proc item m :: outcomesFrom proc (m + 1) rest

/-- Exactly one of `result` and `error` is present on an outcome. -/
def exclusiveOutcome {J R : Type} (o : Outcome J R) : Prop :=
  (o.result.isSome = true ∧ o.error = none) ∨ (o.result = none ∧ o.error.isSome = true)

/-- Record lookup on an embedded `json` object (first binding wins, as in a
JS object with distinct keys); `none` is an absent field. -/
def jsonLookup (record : List (String × JsonVal)) (field : String) : Option JsonVal :=
  match record.find? (fun p => p.1 = field) with
  | some p => some p.2
  | none => none

/-- JS `String.prototype.toLowerCase` (ASCII case mapping suffices for the
strings compared here). -/
def jsToLowerCase (s : String) : String :=
  String.mk (s.toList.map Char.toLower)

/-- JS whitespace class `\s` (the characters relevant to this code base:
space, tab, line feed, carriage return, vertical tab, form feed, NBSP). -/
def jsWhitespace (c : Char) : Bool :=
  c = ' ' || c = '\t' || c = '\n' || c = '\r' ||
    c = Char.ofNat 11 || c = Char.ofNat 12 || c = Char.ofNat 160

/-- JS `String.prototype.trim` on a character list: drop whitespace from
both ends. -/
def trimList (l : List Char) : List Char :=
  ((l.dropWhile jsWhitespace).reverse.dropWhile jsWhitespace).reverse

/-- `checkDeletionConfirmation` (src/unnamed/part_002:21).  Parameters:
`requireConfirmation` and `confirmationValue`/`confirmationField` come from
the `confirmation` collection (absent entries are `none`; JS `||` treats
the empty string as falsy, so an empty `confirmationField` also falls back
to `'confirm_delete'`), `idSource` is the node parameter, `record` is the
input item's `json`.  The manual branch is
`!!(confirmationValue && confirmationValue.toLowerCase() === 'delete')`;
the field branch accepts boolean values as-is and strings whose
`.toLowerCase().trim()` equals `'true'`, `'yes'` or `'delete'`. -/
def checkDeletionConfirmation (requireConfirmation : Bool) (idSource : String)
    (confirmationValue : Option String) (confirmationField : Option String)
    (record : List (String × JsonVal)) : Bool :=
  if !requireConfirmation then true
  else if idSource = "manual" then
    match confirmationValue with
    | none => false
    | some v => !(v = "") && jsToLowerCase v = "delete"
  else
    let field := jsStrOr confirmationField "confirm_delete"
    match jsonLookup record field with
    | some (.bool b) => b
    | some (.str s) =>
      let normalizedValue := String.mk (trimList (jsToLowerCase s).toList)
      normalizedValue = "true" || normalizedValue = "yes" || normalizedValue = "delete"
    | _ => false

/-- One pass of the global regex replace `/\s+/g → ' '`
(src/unnamed/part_007:612): each maximal run of whitespace characters is
replaced by a single space.  `prevWS` records whether the previous
character belonged to a whitespace run (so the run's single space has
already been emitted). -/
def collapseWSGo (prevWS : Bool) : List Char → List Char
  | [] => []
  | c :: l =>
    if jsWhitespace c then
      (if prevWS then [] else [' ']) ++ collapseWSGo true l
    else
      c :: collapseWSGo false l

/-- The replace `/\s+/g → ' '` itself. -/
def collapseWS (l : List Char) : List Char :=
  collapseWSGo false l

/-- One pass of the global regex replace `/[\r\n]+/g → '\n'`
(src/unnamed/part_007:613): each maximal run of CR/LF characters is
replaced by a single line feed. -/
def collapseCRLFGo (prevNL : Bool) : List Char → List Char
  | [] => []
  | c :: l =>
    if c = '\r' || c = '\n' then
      (if prevNL then [] else ['\n']) ++ collapseCRLFGo true l
    else
      c :: collapseCRLFGo false l

/-- The replace `/[\r\n]+/g → '\n'` itself. -/
def collapseCRLF (l : List Char) : List Char :=
  collapseCRLFGo false l

/-- `normalizeTextInput` (src/unnamed/part_007:609):
`text.trim().replace(/\s+/g, ' ').replace(/[\r\n]+/g, '\n')`. -/
def normalizeTextInput (text : String) : String :=
  String.mk (collapseCRLF (collapseWS (trimList text.toList)))

/-- The field-based confirmation rule exactly as the claim words it (no
trimming): the named field is boolean `true`, or a string case-insensitively
equal to `"true"`, `"yes"` or `"delete"`; anything else, including an absent
field, is unconfirmed. -/
def specFieldConfirmedNoTrim (v : Option JsonVal) : Bool :=
  match v with
  | some (.bool true) => true
  | some (.str s) =>
    jsToLowerCase s = "true" || jsToLowerCase s = "yes" || jsToLowerCase s = "delete"
  | _ => false

/-- The confirmation rule as the claim words it, amended only by allowing
surrounding whitespace to be trimmed from a string field value before the
case-insensitive comparison (which is what the source's
`.toLowerCase().trim()` does). -/
def specConfirmedAmended (requireConfirmation : Bool) (idSource : String)
    (confirmationValue : Option String) (confirmationField : Option String)
    (record : List (String × JsonVal)) : Bool :=
  if !requireConfirmation then true
  else if idSource = "manual" then
    match confirmationValue with
    | some v => jsToLowerCase v = "delete"
    | none => false
  else
    match jsonLookup record (jsStrOr confirmationField "confirm_delete") with
    | some (.bool true) => true
    | some (.str s) =>
      let t := String.mk (trimList (jsToLowerCase s).toList)
      t = "true" || t = "yes" || t = "delete"
    | _ => false

namespace MemUClient

theorem retryGo_attempts_le {T : Type} (op : Nat → Except ApiErr T) (baseDelay : Nat) :
    ∀ r attempt, (retryGo op baseDelay attempt r).attempts ≤ r + 1
  | 0, attempt => by
    unfold retryGo
    cases op attempt <;> simp
  | r + 1, attempt => by
    unfold retryGo
    cases h : op attempt with
    | ok v => simp
    | error e =>
      by_cases hs : shouldRetryError e
      · have ih := retryGo_attempts_le op baseDelay r (attempt + 1)
        simp only [hs, if_true]
        omega
      · simp [hs]

theorem retryGo_const_retryable {T : Type} (op : Nat → Except ApiErr T) (baseDelay : Nat)
    (e : ApiErr) (hop : ∀ k, op k = .error e) (hret : shouldRetryError e = true) :
    ∀ r attempt, (retryGo op baseDelay attempt r).attempts = r + 1 ∧
      (retryGo op baseDelay attempt r).outcome = .error e
  | 0, attempt => by simp [retryGo, hop attempt]
  | r + 1, attempt => by
    have ih := retryGo_const_retryable op baseDelay e hop hret r (attempt + 1)
    simp [retryGo, hop attempt, hret, ih.1, ih.2]

theorem retryGo_nonretryable {T : Type} (op : Nat → Except ApiErr T) (baseDelay : Nat)
    (e : ApiErr) (hop : ∀ k, op k = .error e) (hret : shouldRetryError e = false) :
    ∀ r attempt, retryGo op baseDelay attempt r = ⟨.error e, 1, []⟩
  | 0, attempt => by simp [retryGo, hop attempt]
  | r + 1, attempt => by simp [retryGo, hop attempt, hret]

theorem retryGo_sleeps {T : Type} (op : Nat → Except ApiErr T) (baseDelay : Nat) :
    ∀ r attempt i x, (retryGo op baseDelay attempt r).sleeps.get? i = some x →
      x = baseDelay * 2 ^ (attempt + i)
  | 0, attempt, i, x => by
    unfold retryGo
    cases op attempt <;> simp
  | r + 1, attempt, i, x => by
    unfold retryGo
    cases h : op attempt with
    | ok v => simp
    | error e =>
      by_cases hs : shouldRetryError e
      · simp only [hs, if_true]
        match i with
        | 0 =>
          intro hget
          simp at hget
          exact hget.symm
        | i + 1 =>
          intro hget
          have ih := retryGo_sleeps op baseDelay r (attempt + 1) i x (by simpa using hget)
          simpa [Nat.add_assoc, Nat.add_comm 1 i] using ih
      · simp [hs]

end MemUClient

namespace UpdateNodeClient

theorem capped_attempts_le {T : Type} (cond : ApiErr → Bool) (op : Nat → Except ApiErr T)
    (baseDelay maxDelay : Nat) :
    ∀ r attempt, (retryGo cond op baseDelay maxDelay attempt r).attempts ≤ r + 1
  | 0, attempt => by
    unfold retryGo
    cases op attempt <;> simp
  | r + 1, attempt => by
    unfold retryGo
    cases h : op attempt with
    | ok v => simp
    | error e =>
      by_cases hs : cond e
      · have ih := capped_attempts_le cond op baseDelay maxDelay r (attempt + 1)
        simp only [hs, if_true]
        omega
      · simp [hs]

theorem capped_const_retryable {T : Type} (cond : ApiErr → Bool) (op : Nat → Except ApiErr T)
    (baseDelay maxDelay : Nat) (e : ApiErr) (hop : ∀ k, op k = .error e) (hret : cond e = true) :
    ∀ r attempt, (retryGo cond op baseDelay maxDelay attempt r).attempts = r + 1 ∧
      (retryGo cond op baseDelay maxDelay attempt r).outcome = .error (handleApiError e)
  | 0, attempt => by simp [retryGo, hop attempt]
  | r + 1, attempt => by
    have ih := capped_const_retryable cond op baseDelay maxDelay e hop hret r (attempt + 1)
    simp [retryGo, hop attempt, hret, ih.1, ih.2]

theorem capped_nonretryable {T : Type} (cond : ApiErr → Bool) (op : Nat → Except ApiErr T)
    (baseDelay maxDelay : Nat) (e : ApiErr) (hop : ∀ k, op k = .error e)
    (hret : cond e = false) :
    ∀ r attempt, retryGo cond op baseDelay maxDelay attempt r =
      ⟨.error (handleApiError e), 1, []⟩
  | 0, attempt => by simp [retryGo, hop attempt]
  | r + 1, attempt => by simp [retryGo, hop attempt, hret]

theorem capped_sleeps {T : Type} (cond : ApiErr → Bool) (op : Nat → Except ApiErr T)
    (baseDelay maxDelay : Nat) :
    ∀ r attempt i x, (retryGo cond op baseDelay maxDelay attempt r).sleeps.get? i = some x →
      x = min (baseDelay * 2 ^ (attempt + i)) maxDelay
  | 0, attempt, i, x => by
    unfold retryGo
    cases op attempt <;> simp
  | r + 1, attempt, i, x => by
    unfold retryGo
    cases h : op attempt with
    | ok v => simp
    | error e =>
      by_cases hs : cond e
      · simp only [hs, if_true]
        match i with
        | 0 =>
          intro hget
          simp at hget
          exact hget.symm
        | i + 1 =>
          intro hget
          have ih := capped_sleeps cond op baseDelay maxDelay r (attempt + 1) i x
            (by simpa using hget)
          simpa [Nat.add_assoc, Nat.add_comm 1 i] using ih
      · simp [hs]

end UpdateNodeClient

/-- C1: every invocation of a retry wrapper with budget `maxRetries` attempts
the wrapped operation at most `maxRetries + 1` times (both the shared
`MemUClient.withRetry` and the update node's `withRetry`); with
`maxRetries = 3` and an operation that always fails with HTTP status 500,
exactly 4 attempts are made and the terminal error classifies to
SERVICE_ERROR; with an operation that always fails with the non-retryable
status 401, exactly one attempt is made, no retry sleep happens, and the
classified 401 error is raised at once. -/
theorem withRetry_attempt_budget {T : Type} (op op5 op4 : Nat → Except ApiErr T)
    (maxRetries baseDelay maxDelay : Nat) (originalData : List (String × JsonVal))
    (e5 e4 : ApiErr) (resp5 resp4 : ApiResponse)
    (hop5 : ∀ k, op5 k = .error e5) (hr5 : e5.response = some resp5)
    (h5 : resp5.status = 500)
    (hop4 : ∀ k, op4 k = .error e4) (hr4 : e4.response = some resp4)
    (h4 : resp4.status = 401) :
    (MemUClient.withRetry op maxRetries baseDelay).attempts ≤ maxRetries + 1 ∧
    (UpdateNodeClient.withRetry op maxRetries baseDelay maxDelay).attempts ≤ maxRetries + 1 ∧
    (MemUClient.withRetry op5 3 baseDelay).attempts = 4 ∧
    (MemUClient.withRetry op5 3 baseDelay).outcome = .error e5 ∧
    (handleMemUError e5 originalData).errorCode = "SERVICE_ERROR" ∧
    (UpdateNodeClient.withRetry op5 3 baseDelay maxDelay).attempts = 4 ∧
    (UpdateNodeClient.withRetry op5 3 baseDelay maxDelay).outcome =
      .error "MemU service error. Please try again later." ∧
    (MemUClient.withRetry op4 maxRetries baseDelay).attempts = 1 ∧
    (MemUClient.withRetry op4 maxRetries baseDelay).sleeps = [] ∧
    (MemUClient.withRetry op4 maxRetries baseDelay).outcome = .error e4 ∧
    (UpdateNodeClient.withRetry op4 maxRetries baseDelay maxDelay).attempts = 1 ∧
    (UpdateNodeClient.withRetry op4 maxRetries baseDelay maxDelay).sleeps = [] ∧
    (UpdateNodeClient.withRetry op4 maxRetries baseDelay maxDelay).outcome =
      .error "Authentication failed. Please check your API credentials." ∧
    (∀ (opx : Nat → Except ApiErr T) (ex : ApiErr) (respx : ApiResponse),
      (∀ k, opx k = .error ex) → ex.response = some respx →
      400 ≤ respx.status → respx.status < 500 →
      (MemUClient.withRetry opx maxRetries baseDelay).attempts = 1 ∧
      (MemUClient.withRetry opx maxRetries baseDelay).sleeps = [] ∧
      (UpdateNodeClient.withRetry opx maxRetries baseDelay maxDelay).attempts = 1 ∧
      (UpdateNodeClient.withRetry opx maxRetries baseDelay maxDelay).sleeps = []) := by
  have hret5 : shouldRetryError e5 = true := by
    simp [shouldRetryError, hr5, h5]
  have hret4 : shouldRetryError e4 = false := by
    simp [shouldRetryError, hr4, h4]
  have hclass5 : UpdateNodeClient.handleApiError e5 =
      "MemU service error. Please try again later." := by
    simp [UpdateNodeClient.handleApiError, hr5, h5]
  have hclass4 : UpdateNodeClient.handleApiError e4 =
      "Authentication failed. Please check your API credentials." := by
    simp [UpdateNodeClient.handleApiError, hr4, h4]
  have c5 := MemUClient.retryGo_const_retryable op5 baseDelay e5 hop5 hret5 3 0
  have u5 := UpdateNodeClient.capped_const_retryable shouldRetryError op5 baseDelay maxDelay
    e5 hop5 hret5 3 0
  have c4 := MemUClient.retryGo_nonretryable op4 baseDelay e4 hop4 hret4 maxRetries 0
  have u4 := UpdateNodeClient.capped_nonretryable shouldRetryError op4 baseDelay maxDelay
    e4 hop4 hret4 maxRetries 0
  refine ⟨MemUClient.retryGo_attempts_le op baseDelay maxRetries 0,
    UpdateNodeClient.capped_attempts_le shouldRetryError op baseDelay maxDelay maxRetries 0,
    c5.1, c5.2, ?_, u5.1, ?_, ?_, ?_, ?_, ?_, ?_, ?_, ?_⟩
  · simp [handleMemUError, hr5, h5, createErrorOutput, jsStrOr]
  · rw [UpdateNodeClient.withRetry, u5.2, hclass5]
  · rw [MemUClient.withRetry, c4]
  · rw [MemUClient.withRetry, c4]
  · rw [MemUClient.withRetry, c4]
  · rw [UpdateNodeClient.withRetry, u4]
  · rw [UpdateNodeClient.withRetry, u4]
  · rw [UpdateNodeClient.withRetry, u4, hclass4]
  · intro opx ex respx hopx hrx h4a h4b
    have hret : shouldRetryError ex = false := by
      simp [shouldRetryError, hrx]
      omega
    have cx := MemUClient.retryGo_nonretryable opx baseDelay ex hopx hret maxRetries 0
    have ux := UpdateNodeClient.capped_nonretryable shouldRetryError opx baseDelay maxDelay
      ex hopx hret maxRetries 0
    exact ⟨by rw [MemUClient.withRetry, cx], by rw [MemUClient.withRetry, cx],
      by rw [UpdateNodeClient.withRetry, ux], by rw [UpdateNodeClient.withRetry, ux]⟩

/-- Witness for C1 at concrete operations that always fail with status 500
and status 401 respectively. -/
theorem withRetry_attempt_budget_witness :
    (MemUClient.withRetry
      (fun _ => (.error ⟨some ⟨500, none, none⟩, true, "boom"⟩ : Except ApiErr Nat))
      3 1000).attempts = 4 ∧
    (MemUClient.withRetry
      (fun _ => (.error ⟨some ⟨401, none, none⟩, true, "denied"⟩ : Except ApiErr Nat))
      3 1000).attempts = 1 := by
  have h := withRetry_attempt_budget
    (fun _ => (.error ⟨some ⟨500, none, none⟩, true, "boom"⟩ : Except ApiErr Nat))
    (fun _ => (.error ⟨some ⟨500, none, none⟩, true, "boom"⟩ : Except ApiErr Nat))
    (fun _ => (.error ⟨some ⟨401, none, none⟩, true, "denied"⟩ : Except ApiErr Nat))
    3 1000 10000 [] ⟨some ⟨500, none, none⟩, true, "boom"⟩
    ⟨some ⟨401, none, none⟩, true, "denied"⟩ ⟨500, none, none⟩ ⟨401, none, none⟩
    (fun _ => rfl) rfl rfl (fun _ => rfl) rfl rfl
  exact ⟨h.2.2.1, h.2.2.2.2.2.2.2.1⟩

/-- C2 counterexample: the claim says every retry sleep equals
`min(baseDelay * 2^attempt, maxDelay)`, but `MemUClient.withRetry` sleeps
the uncapped `baseDelay * 2^attempt`: with `baseDelay = 1000` and a
persistent 500 failure, the sleep after attempt 4 is 16000ms, while the
capped formula (with the module's default `maxDelay = 10000`) gives
10000ms. -/
theorem backoff_cap_counterexample :
    (MemUClient.withRetry
      (fun _ => (.error ⟨some ⟨500, none, none⟩, true, "boom"⟩ : Except ApiErr Nat))
      5 1000).sleeps = [1000, 2000, 4000, 8000, 16000] ∧
    ¬ (16000 : Nat) = min (1000 * 2 ^ 4) 10000 := by
  constructor
  · rfl
  · decide

/-- C2 amended: the capped formula `min(baseDelay * 2^attempt, maxDelay)`
describes `calculateBackoffDelay` (absent jitter) and every sleep of the
update node's `withRetry`; the sleeps of the shared `MemUClient.withRetry`
instead follow the uncapped `baseDelay * 2^attempt`. -/
theorem backoff_delay_formula {T : Type} (op : Nat → Except ApiErr T)
    (maxRetries baseDelay maxDelay a : Nat) :
    calculateBackoffDelay 0 a baseDelay maxDelay = min (baseDelay * 2 ^ a) maxDelay ∧
    (∀ i x, (UpdateNodeClient.withRetry op maxRetries baseDelay maxDelay).sleeps.get? i =
      some x → x = min (baseDelay * 2 ^ i) maxDelay) ∧
    (∀ i x, (MemUClient.withRetry op maxRetries baseDelay).sleeps.get? i = some x →
      x = baseDelay * 2 ^ i) := by
  refine ⟨by simp [calculateBackoffDelay], ?_, ?_⟩
  · intro i x hget
    have h := UpdateNodeClient.capped_sleeps shouldRetryError op baseDelay maxDelay
      maxRetries 0 i x hget
    simpa using h
  · intro i x hget
    have h := MemUClient.retryGo_sleeps op baseDelay maxRetries 0 i x hget
    simpa using h

/-- Witness for the amended C2 at a persistent 500 failure: the fifth sleep
of the update node's wrapper is capped to 10000ms. -/
theorem backoff_delay_formula_witness :
    (10000 : Nat) = min (1000 * 2 ^ 4) 10000 :=
  (backoff_delay_formula
    (fun _ => (.error ⟨some ⟨500, none, none⟩, true, "boom"⟩ : Except ApiErr Nat))
    5 1000 10000 4).2.1 4 10000 (by decide)

/-- C7 counterexample: the claim maps every 5xx status to SERVICE_ERROR and
any absent status to NETWORK_ERROR, but the code's switch only has
`case 500`, so status 503 (a 5xx) takes the default API_ERROR branch; and a
failure with neither response nor request takes the UNEXPECTED_ERROR
branch, not NETWORK_ERROR. -/
theorem errorClassification_counterexample :
    (handleMemUError ⟨some ⟨503, none, none⟩, true, "boom"⟩ []).errorCode = "API_ERROR" ∧
    ¬ (handleMemUError ⟨some ⟨503, none, none⟩, true, "boom"⟩ []).errorCode = "SERVICE_ERROR" ∧
    (500 ≤ 503 ∧ 503 ≤ 599) ∧
    MemUClient.handleApiError ⟨some ⟨503, none, none⟩, true, "boom"⟩ = "API Error (503): boom" ∧
    (handleMemUError ⟨none, false, "oops"⟩ []).errorCode = "UNEXPECTED_ERROR" ∧
    ¬ (handleMemUError ⟨none, false, "oops"⟩ []).errorCode = "NETWORK_ERROR" := by
  decide

/-- C7 amended: classification is deterministic in the failure's status:
401 yields AUTH_FAILED, 403 ACCESS_DENIED, 404 NOT_FOUND, 422
VALIDATION_ERROR, 429 RATE_LIMITED, exactly 500 yields SERVICE_ERROR, a
missing status with a transport request attached yields NETWORK_ERROR, a
missing status without a request yields UNEXPECTED_ERROR, and every other
status (including 501-599) yields the generic API_ERROR with the numeric
status preserved in the message; `MemUClient.handleApiError` produces the
matching messages. -/
theorem errorClassification_amended (e : ApiErr) (resp : ApiResponse)
    (originalData : List (String × JsonVal)) :
    (e.response = some resp →
      (resp.status = 401 → (handleMemUError e originalData).errorCode = "AUTH_FAILED") ∧
      (resp.status = 403 → (handleMemUError e originalData).errorCode = "ACCESS_DENIED") ∧
      (resp.status = 404 → (handleMemUError e originalData).errorCode = "NOT_FOUND") ∧
      (resp.status = 422 → (handleMemUError e originalData).errorCode = "VALIDATION_ERROR") ∧
      (resp.status = 429 → (handleMemUError e originalData).errorCode = "RATE_LIMITED") ∧
      (resp.status = 500 → (handleMemUError e originalData).errorCode = "SERVICE_ERROR" ∧
        MemUClient.handleApiError e = "MemU service error. Please try again later.") ∧
      (¬ resp.status = 401 → ¬ resp.status = 403 → ¬ resp.status = 404 →
        ¬ resp.status = 422 → ¬ resp.status = 429 → ¬ resp.status = 500 →
        (handleMemUError e originalData).errorCode = "API_ERROR" ∧
        (handleMemUError e originalData).message =
          "API Error (" ++ toString resp.status ++ "): " ++
            jsStrOr resp.dataMessage e.message ∧
        MemUClient.handleApiError e =
          "API Error (" ++ toString resp.status ++ "): " ++
            jsStrOr resp.dataMessage e.message)) ∧
    (e.response = none → e.request = true →
      (handleMemUError e originalData).errorCode = "NETWORK_ERROR") ∧
    (e.response = none → e.request = false →
      (handleMemUError e originalData).errorCode = "UNEXPECTED_ERROR") := by
  refine ⟨fun hr => ?_, fun hr hq => ?_, fun hr hq => ?_⟩
  · refine ⟨fun h => ?_, fun h => ?_, fun h => ?_, fun h => ?_, fun h => ?_,
      fun h => ⟨?_, ?_⟩, fun n1 n3 n4 n22 n29 n5 => ⟨?_, ?_, ?_⟩⟩
    · simp [handleMemUError, hr, h, createErrorOutput, jsStrOr]
    · simp [handleMemUError, hr, h, createErrorOutput, jsStrOr]
    · simp [handleMemUError, hr, h, createErrorOutput, jsStrOr]
    · simp [handleMemUError, hr, h, createErrorOutput, jsStrOr]
    · simp [handleMemUError, hr, h, createErrorOutput, jsStrOr]
    · simp [handleMemUError, hr, h, createErrorOutput, jsStrOr]
    · simp [MemUClient.handleApiError, hr, h]
    · simp [handleMemUError, hr, createErrorOutput, jsStrOr, n1, n3, n4, n22, n29, n5]
    · simp [handleMemUError, hr, createErrorOutput, jsStrOr, n1, n3, n4, n22, n29, n5]
    · simp [MemUClient.handleApiError, hr, n1, n3, n4, n22, n29, n5]
  · simp [handleMemUError, hr, hq, createErrorOutput, jsStrOr]
  · simp [handleMemUError, hr, hq, createErrorOutput, jsStrOr]

/-- Witness for the amended C7 at status 429 and at a missing status with a
request attached (the round-trip cases named by the spec). -/
theorem errorClassification_amended_witness :
    (handleMemUError ⟨some ⟨429, none, none⟩, true, "slow down"⟩ []).errorCode =
      "RATE_LIMITED" ∧
    (handleMemUError ⟨none, true, "refused"⟩ []).errorCode = "NETWORK_ERROR" :=
  ⟨((errorClassification_amended ⟨some ⟨429, none, none⟩, true, "slow down"⟩
      ⟨429, none, none⟩ []).1 rfl).2.2.2.2.1 rfl,
    (errorClassification_amended ⟨none, true, "refused"⟩ ⟨429, none, none⟩ []).2.1 rfl rfl⟩

/-- C9: a failure with neither an HTTP response nor a transport request
attached (as for the nodes' locally raised `NodeOperationError`s) always
takes `handleMemUError`'s fallback branch: the output carries code
UNEXPECTED_ERROR and message `'Unexpected error: '` followed by the original
message, and in particular never the VALIDATION_ERROR code. -/
theorem local_error_unexpected_code (e : ApiErr) (originalData : List (String × JsonVal))
    (hr : e.response = none) (hq : e.request = false) :
    handleMemUError e originalData =
      ⟨originalData, "UNEXPECTED_ERROR", "Unexpected error: " ++ e.message⟩ ∧
    ¬ (handleMemUError e originalData).errorCode = "VALIDATION_ERROR" := by
  constructor
  · simp [handleMemUError, hr, hq, createErrorOutput, jsStrOr]
  · simp [handleMemUError, hr, hq, createErrorOutput, jsStrOr]

/-- Witness for C9 at a concrete locally raised error. -/
theorem local_error_unexpected_code_witness :
    handleMemUError ⟨none, false, "Item ID is required"⟩ [] =
      ⟨[], "UNEXPECTED_ERROR", "Unexpected error: Item ID is required"⟩ :=
  (local_error_unexpected_code ⟨none, false, "Item ID is required"⟩ [] rfl rfl).1

/-- C6 counterexample: with confirmation required, a batch/record ID source
and the field value `" yes "` (whitespace-padded), the code confirms the
deletion, but the claim's characterization (string case-insensitively equal
to `"true"`, `"yes"` or `"delete"`) rejects it — the source trims the value
first, which the claim does not allow. -/
theorem confirmation_trim_counterexample :
    checkDeletionConfirmation true "batch" none none
      [("confirm_delete", JsonVal.str " yes ")] = true ∧
    specFieldConfirmedNoTrim
      (jsonLookup [("confirm_delete", JsonVal.str " yes ")] "confirm_delete") = false := by
  constructor
  · decide
  · decide

/-- C6 amended: `checkDeletionConfirmation` returns true unconditionally
when confirmation is not required; with manual ID entry it confirms exactly
when the typed value case-insensitively equals the literal `delete`; with a
batch/record ID source it confirms exactly when the named field (default
`confirm_delete`) is boolean `true` or a string whose lowercased and
whitespace-trimmed form equals `"true"`, `"yes"` or `"delete"`, and rejects
every other value including an absent field. -/
theorem checkDeletionConfirmation_spec (requireConfirmation : Bool) (idSource : String)
    (confirmationValue confirmationField : Option String)
    (record : List (String × JsonVal)) :
    checkDeletionConfirmation requireConfirmation idSource confirmationValue
      confirmationField record =
    specConfirmedAmended requireConfirmation idSource confirmationValue
      confirmationField record := by
  unfold checkDeletionConfirmation specConfirmedAmended
  cases requireConfirmation with
  | false => rfl
  | true =>
    simp only [Bool.not_true, Bool.false_eq_true, if_false]
    by_cases hsrc : idSource = "manual"
    · simp only [hsrc, if_true]
      cases confirmationValue with
      | none => rfl
      | some v =>
        by_cases hv : v = ""
        · subst hv
          decide
        · simp [hv]
    · simp only [hsrc, if_false]
      cases jsonLookup record (jsStrOr confirmationField "confirm_delete") with
      | none => rfl
      | some val =>
        cases val with
        | bool b => cases b <;> rfl
        | str s => rfl
        | num n => rfl
        | null => rfl

theorem processItem_continue {J R : Type} (proc : Nat → Except String R) (item : J) (i : Nat) :
    processItem proc true item i = .ok (outcomeOf proc item i) := by
  unfold processItem outcomeOf
  cases proc i <;> simp

theorem seqExcept_mapWithIndexFrom_ok {A B C : Type} (f : Nat → A → Except C B)
    (g : Nat → A → B) (hfg : ∀ i a, f i a = .ok (g i a)) :
    ∀ (l : List A) (j : Nat),
      seqExcept (mapWithIndexFrom f j l) = .ok (mapWithIndexFrom g j l)
  | [], j => rfl
  | a :: l, j => by
    have ih := seqExcept_mapWithIndexFrom_ok f g hfg l (j + 1)
    simp [mapWithIndexFrom, seqExcept, hfg j a, ih]

theorem mapWithIndexFrom_outcomes {J R : Type} (proc : Nat → Except String R) (m : Nat) :
    ∀ (l : List J) (j : Nat),
      mapWithIndexFrom (fun ci item => outcomeOf proc item (m + ci)) j l =
        outcomesFrom proc (m + j) l
  | [], j => rfl
  | a :: l, j => by
    have ih := mapWithIndexFrom_outcomes proc m l (j + 1)
    simp [mapWithIndexFrom, outcomesFrom, ih, Nat.add_assoc]

theorem mapWithIndexFrom_outcomes_id {J R : Type} (proc : Nat → Except String R) :
    ∀ (l : List J) (j : Nat),
      mapWithIndexFrom (fun i item => outcomeOf proc item i) j l = outcomesFrom proc j l
  | [], j => rfl
  | a :: l, j => by
    have ih := mapWithIndexFrom_outcomes_id proc l (j + 1)
    simp [mapWithIndexFrom, outcomesFrom, ih]

theorem outcomesFrom_length {J R : Type} (proc : Nat → Except String R) :
    ∀ (l : List J) (m : Nat), (outcomesFrom proc m l).length = l.length
  | [], m => rfl
  | a :: l, m => by simp [outcomesFrom, outcomesFrom_length proc l (m + 1)]

theorem outcomesFrom_append {J R : Type} (proc : Nat → Except String R) :
    ∀ (l1 l2 : List J) (m : Nat),
      outcomesFrom proc m (l1 ++ l2) =
        outcomesFrom proc m l1 ++ outcomesFrom proc (m + l1.length) l2
  | [], l2, m => by simp [outcomesFrom]
  | a :: l1, l2, m => by
    have ih := outcomesFrom_append proc l1 l2 (m + 1)
    have harith : m + 1 + l1.length = m + (l1.length + 1) := by omega
    simp [outcomesFrom, ih, harith]

theorem outcomesFrom_get? {J R : Type} (proc : Nat → Except String R) :
    ∀ (l : List J) (m i : Nat),
      (outcomesFrom proc m l).get? i = (l.get? i).map (fun a => outcomeOf proc a (m + i))
  | [], m, i => by simp [outcomesFrom]
  | a :: l, m, 0 => by simp [outcomesFrom]
  | a :: l, m, i + 1 => by
    have ih := outcomesFrom_get? proc l (m + 1) i
    have harith : m + 1 + i = m + (i + 1) := by omega
    rw [harith] at ih
    simpa [outcomesFrom] using ih

theorem chunksOfGo_join {A : Type} (k : Nat) (hk : 1 ≤ k) :
    ∀ (fuel : Nat) (l : List A), l.length ≤ fuel → (chunksOfGo k fuel l).flatten = l
  | fuel, [], _ => by cases fuel <;> simp [chunksOfGo]
  | 0, a :: l, h => by simp at h
  | fuel + 1, a :: l, h => by
    have hlen : ((a :: l).drop k).length ≤ fuel := by
      simp only [List.length_drop, List.length_cons] at *
      omega
    have ih := chunksOfGo_join k hk fuel ((a :: l).drop k) hlen
    simp [chunksOfGo, ih]

theorem batchChunksGo_continue {J R : Type} (proc : Nat → Except String R) :
    ∀ (chunks : List (List J)) (acc : List (Outcome J R)),
      batchChunksGo proc true chunks acc =
        .ok (acc ++ outcomesFrom proc acc.length chunks.flatten)
  | [], acc => by simp [batchChunksGo, outcomesFrom]
  | chunk :: rest, acc => by
    have h1 : seqExcept (mapWithIndexFrom
        (fun chunkIndex item => processItem proc true item (acc.length + chunkIndex)) 0 chunk) =
        .ok (outcomesFrom proc acc.length chunk) := by
      rw [seqExcept_mapWithIndexFrom_ok _
        (fun chunkIndex item => outcomeOf proc item (acc.length + chunkIndex))
        (fun i a => processItem_continue proc a (acc.length + i)) chunk 0,
        mapWithIndexFrom_outcomes proc acc.length chunk 0]
      simp
    have ih := batchChunksGo_continue proc rest (acc ++ outcomesFrom proc acc.length chunk)
    simp only [batchChunksGo, h1, ih]
    simp [outcomesFrom_append, outcomesFrom_length, List.append_assoc]

theorem batchProcessInputData_continue {J R : Type} (inputData : List J)
    (proc : Nat → Except String R) (preserveOrder : Bool) (k : Nat) (hk : 1 ≤ k) :
    batchProcessInputData inputData proc preserveOrder true k =
      .ok (outcomesFrom proc 0 inputData) := by
  unfold batchProcessInputData
  split
  · rw [seqExcept_mapWithIndexFrom_ok _ (fun i item => outcomeOf proc item i)
      (fun i a => processItem_continue proc a i) inputData 0,
      mapWithIndexFrom_outcomes_id proc inputData 0]
  · rw [batchChunksGo_continue proc (chunksOf k inputData) []]
    simp [chunksOf, chunksOfGo_join k hk inputData.length inputData (le_refl _)]

/-- C3 (code bug): with 5 records, `maxConcurrency = 2` and the default
`preserveOrder = true`, `batchProcessInputData` takes the
`maxConcurrency === 1 || preserveOrder` branch, whose
`Promise.all(inputData.map(processItem))` starts all 5 processor
invocations before awaiting any (despite its `// Sequential processing`
comment), so 5 > 2 calls are in flight at once; only with
`preserveOrder = false` does the chunk loop bound the in-flight groups by 2
while still covering every index in order. -/
theorem batch_sequential_branch_unbounded :
    batchLaunchGroups 5 2 true = [[0, 1, 2, 3, 4]] ∧
    ¬ (∀ g ∈ batchLaunchGroups 5 2 true, g.length ≤ 2) ∧
    (∀ g ∈ batchLaunchGroups 5 2 false, g.length ≤ 2) ∧
    (batchLaunchGroups 5 2 false).flatten = List.range 5 ∧
    batchLaunchGroups 3 1 true = [[0, 1, 2]] := by
  refine ⟨by decide, ?_, by decide, by decide, by decide⟩
  intro h
  have := h [0, 1, 2, 3, 4] (by decide)
  simp at this

/-- C4: with `continueOnError = true` and a positive concurrency bound, the
batch executor resolves with exactly one outcome per input record, and the
outcome at position `i` carries index `i` and the `json` payload of input
record `i` (the embedding of `Promise.all` settles positionally, so this is
independent of completion order). -/
theorem batch_preserves_order {J R : Type} (inputData : List J)
    (proc : Nat → Except String R) (preserveOrder : Bool) (k : Nat) (hk : 1 ≤ k) :
    batchProcessInputData inputData proc preserveOrder true k =
      .ok (outcomesFrom proc 0 inputData) ∧
    (outcomesFrom proc 0 inputData).length = inputData.length ∧
    (∀ i a, inputData.get? i = some a →
      ∃ o, (outcomesFrom proc 0 inputData).get? i = some o ∧
        o.index = i ∧ o.originalData = a) := by
  refine ⟨batchProcessInputData_continue inputData proc preserveOrder k hk,
    outcomesFrom_length proc inputData 0, ?_⟩
  intro i a ha
  refine ⟨outcomeOf proc a i, ?_, ?_, ?_⟩
  · rw [outcomesFrom_get? proc inputData 0 i, ha]
    simp
  · unfold outcomeOf
    cases proc i <;> rfl
  · unfold outcomeOf
    cases proc i <;> rfl

/-- Witness for C4: 3 records at concurrency 2, chunked branch. -/
theorem batch_preserves_order_witness :
    batchProcessInputData ["a", "b", "c"]
        (fun i => (.ok (i * 10) : Except String Nat)) false true 2 =
      .ok (outcomesFrom (fun i => .ok (i * 10)) 0 ["a", "b", "c"]) ∧
    (outcomesFrom (fun i => (.ok (i * 10) : Except String Nat)) 0 ["a", "b", "c"]).length =
      (["a", "b", "c"] : List String).length ∧
    (∀ i a, (["a", "b", "c"] : List String).get? i = some a →
      ∃ o, (outcomesFrom (fun i => (.ok (i * 10) : Except String Nat)) 0
          ["a", "b", "c"]).get? i = some o ∧ o.index = i ∧ o.originalData = a) :=
  batch_preserves_order ["a", "b", "c"] (fun i => .ok (i * 10)) false 2 (by decide)

/-- C5: with `continueOnError = true`, a processor failure for record `i`
is captured as a `⟨success := false, error, originalData, index := i⟩`
outcome and every record still yields an outcome; with
`continueOnError = false`, a failure of the first record propagates out of
the call and no outcome array is produced. -/
theorem batch_failure_policy {J R : Type} (inputData : List J)
    (proc : Nat → Except String R) (preserveOrder : Bool) (k i : Nat) (msg : String)
    (a : J) (hk : 1 ≤ k) (ha : inputData.get? i = some a) (hf : proc i = .error msg) :
    (batchProcessInputData inputData proc preserveOrder true k =
      .ok (outcomesFrom proc 0 inputData) ∧
     (outcomesFrom proc 0 inputData).length = inputData.length ∧
     (outcomesFrom proc 0 inputData).get? i = some ⟨false, none, some msg, a, i⟩) ∧
    (∀ (inputs0 : List J) (proc0 : Nat → Except String R) (po0 : Bool) (k0 : Nat)
        (msg0 : String) (a0 : J) (rest0 : List J), 1 ≤ k0 → inputs0 = a0 :: rest0 →
      proc0 0 = .error msg0 →
      batchProcessInputData inputs0 proc0 po0 false k0 = .error msg0) := by
  constructor
  · refine ⟨batchProcessInputData_continue inputData proc preserveOrder k hk,
      outcomesFrom_length proc inputData 0, ?_⟩
    rw [outcomesFrom_get? proc inputData 0 i, ha]
    simp [outcomeOf, hf]
  · intro inputs0 proc0 po0 k0 msg0 a0 rest0 hk0 hcons hp0
    subst hcons
    unfold batchProcessInputData
    split
    · simp [mapWithIndexFrom, processItem, hp0, seqExcept]
    · cases k0 with
      | zero => omega
      | succ k0p =>
        simp only [chunksOf, List.length_cons, chunksOfGo, batchChunksGo,
          List.take_succ_cons, mapWithIndexFrom, processItem, hp0]
        simp [hp0, seqExcept]

/-- Witness for C5: 5 records at concurrency 2 where record 2 fails
(continue-on-error), and a 2-record batch whose first record fails
(fail-fast). -/
theorem batch_failure_policy_witness :
    (batchProcessInputData ["a", "b", "c", "d", "e"]
        (fun i => if i = 2 then .error "fail" else (.ok i : Except String Nat))
        false true 2 =
      .ok (outcomesFrom (fun i => if i = 2 then .error "fail" else .ok i) 0
        ["a", "b", "c", "d", "e"]) ∧
     (outcomesFrom (fun i => if i = 2 then .error "fail" else (.ok i : Except String Nat)) 0
        ["a", "b", "c", "d", "e"]).length =
      (["a", "b", "c", "d", "e"] : List String).length ∧
     (outcomesFrom (fun i => if i = 2 then .error "fail" else (.ok i : Except String Nat)) 0
        ["a", "b", "c", "d", "e"]).get? 2 = some ⟨false, none, some "fail", "c", 2⟩) ∧
    (∀ (inputs0 : List String) (proc0 : Nat → Except String Nat) (po0 : Bool) (k0 : Nat)
        (msg0 : String) (a0 : String) (rest0 : List String), 1 ≤ k0 →
      inputs0 = a0 :: rest0 → proc0 0 = .error msg0 →
      batchProcessInputData inputs0 proc0 po0 false k0 = .error msg0) :=
  batch_failure_policy ["a", "b", "c", "d", "e"]
    (fun i => if i = 2 then .error "fail" else .ok i) false 2 2 "fail" "c"
    (by decide) (by decide) (by decide)

theorem processItem_ok_exclusive {J R : Type} (proc : Nat → Except String R)
    (co : Bool) (item : J) (i : Nat) (o : Outcome J R)
    (h : processItem proc co item i = .ok o) : exclusiveOutcome o := by
  unfold processItem at h
  cases hp : proc i with
  | ok r =>
    rw [hp] at h
    injection h with h
    subst h
    left
    constructor <;> rfl
  | error msg =>
    rw [hp] at h
    cases co with
    | true =>
      simp only [if_true] at h
      injection h with h
      subst h
      right
      constructor <;> rfl
    | false => simp at h

theorem seqExcept_ok_mem {E A : Type} :
    ∀ (l : List (Except E A)) (xs : List A), seqExcept l = .ok xs →
      ∀ x ∈ xs, Except.ok x ∈ l
  | [], xs, h => by
    simp only [seqExcept] at h
    injection h with h
    subst h
    intro x hx
    simp at hx
  | .error e :: rest, xs, h => by
    simp [seqExcept] at h
  | .ok a :: rest, xs, h => by
    simp only [seqExcept] at h
    cases hr : seqExcept rest with
    | error e =>
      rw [hr] at h
      simp at h
    | ok as =>
      rw [hr] at h
      injection h with h
      subst h
      intro x hx
      cases List.mem_cons.mp hx with
      | inl hxa =>
        subst hxa
        exact List.mem_cons_self _ _
      | inr hxs =>
        exact List.mem_cons_of_mem _ (seqExcept_ok_mem rest as hr x hxs)

theorem mapWithIndexFrom_mem {A B : Type} (f : Nat → A → B) :
    ∀ (l : List A) (j : Nat) (y : B), y ∈ mapWithIndexFrom f j l → ∃ i a, y = f i a
  | [], j, y, h => by simp [mapWithIndexFrom] at h
  | a :: l, j, y, h => by
    simp only [mapWithIndexFrom, List.mem_cons] at h
    cases h with
    | inl h => exact ⟨j, a, h⟩
    | inr h => exact mapWithIndexFrom_mem f l (j + 1) y h

theorem batchChunksGo_exclusive {J R : Type} (proc : Nat → Except String R) (co : Bool) :
    ∀ (chunks : List (List J)) (acc out : List (Outcome J R)),
      (∀ o ∈ acc, exclusiveOutcome o) → batchChunksGo proc co chunks acc = .ok out →
      ∀ o ∈ out, exclusiveOutcome o
  | [], acc, out, hacc, h => by
    simp only [batchChunksGo] at h
    injection h with h
    subst h
    exact hacc
  | chunk :: rest, acc, out, hacc, h => by
    simp only [batchChunksGo] at h
    cases hs : seqExcept (mapWithIndexFrom
        (fun chunkIndex item => processItem proc co item (acc.length + chunkIndex)) 0 chunk) with
    | error e =>
      rw [hs] at h
      simp at h
    | ok rs =>
      rw [hs] at h
      have hrs : ∀ o ∈ rs, exclusiveOutcome o := by
        intro o ho
        obtain ⟨i, b, hy⟩ := mapWithIndexFrom_mem _ chunk 0 _ (seqExcept_ok_mem _ rs hs o ho)
        exact processItem_ok_exclusive proc co b (acc.length + i) o hy.symm
      refine batchChunksGo_exclusive proc co rest (acc ++ rs) out ?_ h
      intro o ho
      cases List.mem_append.mp ho with
      | inl h1 => exact hacc o h1
      | inr h2 => exact hrs o h2

/-- C8: every element of an outcome array returned by the batch executor has
exactly one of `result` and `error` present — never both, never neither —
whatever the processor did and whatever the options were. -/
theorem outcome_result_error_exclusive {J R : Type} (inputData : List J)
    (proc : Nat → Except String R) (preserveOrder continueOnError : Bool) (k : Nat)
    (out : List (Outcome J R))
    (h : batchProcessInputData inputData proc preserveOrder continueOnError k = .ok out) :
    ∀ o ∈ out, exclusiveOutcome o := by
  unfold batchProcessInputData at h
  split at h
  · intro o ho
    obtain ⟨i, b, hy⟩ := mapWithIndexFrom_mem _ inputData 0 _ (seqExcept_ok_mem _ out h o ho)
    exact processItem_ok_exclusive proc continueOnError b i o hy.symm
  · exact batchChunksGo_exclusive proc continueOnError
      (chunksOf k inputData) [] out (by simp) h

/-- Witness for C8 on a mixed success/failure batch, evaluated at the
outcome of record 1. -/
theorem outcome_result_error_exclusive_witness :
    exclusiveOutcome (⟨true, some 1, none, "b", 1⟩ : Outcome String Nat) :=
  outcome_result_error_exclusive ["a", "b", "c"]
    (fun i => if i = 0 then .error "fail" else .ok i) true true 3 _
    (by rw [batchProcessInputData_continue _ _ _ 3 (by decide)])
    ⟨true, some 1, none, "b", 1⟩ (by decide)

theorem collapseWSGo_mem :
    ∀ (l : List Char) (b : Bool) (c : Char), c ∈ collapseWSGo b l →
      c = ' ' ∨ jsWhitespace c = false
  | [], b, c, h => by simp [collapseWSGo] at h
  | a :: l, b, c, h => by
    simp only [collapseWSGo] at h
    by_cases hws : jsWhitespace a = true
    · rw [if_pos hws] at h
      rcases List.mem_append.mp h with h1 | h2
      · left
        cases b with
        | true => simp at h1
        | false => simpa using h1
      · exact collapseWSGo_mem l true c h2
    · rw [if_neg hws] at h
      rcases List.mem_cons.mp h with h1 | h2
      · right
        subst h1
        simpa using hws
      · exact collapseWSGo_mem l false c h2

theorem collapseCRLFGo_id :
    ∀ (l : List Char) (b : Bool), (∀ c ∈ l, ¬(c = '\r' ∨ c = '\n')) →
      collapseCRLFGo b l = l
  | [], _, _ => rfl
  | a :: l, b, h => by
    have ha := h a (List.mem_cons_self a l)
    push_neg at ha
    simp only [collapseCRLFGo]
    rw [if_neg (by simpa using ha)]
    rw [collapseCRLFGo_id l false (fun c hc => h c (List.mem_cons_of_mem a hc))]

theorem head?_dropWhile_not {A : Type} (p : A → Bool) :
    ∀ (l : List A) (c : A), (l.dropWhile p).head? = some c → p c = false
  | [], c, h => by simp [List.dropWhile] at h
  | a :: l, c, h => by
    rw [List.dropWhile_cons] at h
    by_cases hp : p a = true
    · rw [if_pos hp] at h
      exact head?_dropWhile_not p l c h
    · rw [if_neg hp] at h
      simp at h
      subst h
      simpa using hp

theorem trimList_head (l : List Char) (c : Char) (h : (trimList l).head? = some c) :
    jsWhitespace c = false := by
  unfold trimList at h
  rw [List.head?_reverse] at h
  have hne : (l.dropWhile jsWhitespace).reverse.dropWhile jsWhitespace ≠ [] := by
    intro hnil
    rw [hnil] at h
    simp at h
  have hsplit := List.getLast?_append_of_ne_nil
    ((l.dropWhile jsWhitespace).reverse.takeWhile jsWhitespace) hne
  rw [List.takeWhile_append_dropWhile] at hsplit
  rw [← hsplit, List.getLast?_reverse] at h
  exact head?_dropWhile_not jsWhitespace _ c h

theorem trimList_getLast (l : List Char) (c : Char) (h : (trimList l).getLast? = some c) :
    jsWhitespace c = false := by
  unfold trimList at h
  rw [List.getLast?_reverse] at h
  exact head?_dropWhile_not jsWhitespace _ c h

theorem collapseWSGo_head (l : List Char) (c : Char) (hh : l.head? = some c)
    (hc : jsWhitespace c = false) : (collapseWSGo false l).head? = some c := by
  cases l with
  | nil => simp at hh
  | cons a l =>
    simp at hh
    subst hh
    simp [collapseWSGo, hc]

theorem collapseWSGo_true_all_ws :
    ∀ (l : List Char), collapseWSGo true l = [] → ∀ c ∈ l, jsWhitespace c = true
  | [], _, c, hc => by simp at hc
  | a :: l, h, c, hc => by
    simp only [collapseWSGo] at h
    by_cases hws : jsWhitespace a = true
    · rw [if_pos hws] at h
      simp at h
      rcases List.mem_cons.mp hc with h1 | h2
      · subst h1
        exact hws
      · exact collapseWSGo_true_all_ws l h c h2
    · rw [if_neg hws] at h
      simp at h

theorem collapseWSGo_noTrail :
    ∀ (l : List Char) (b : Bool),
      (∀ c, l.getLast? = some c → jsWhitespace c = false) →
      ∀ c, (collapseWSGo b l).getLast? = some c → jsWhitespace c = false
  | [], b, _, c, hc => by simp [collapseWSGo] at hc
  | a :: l, b, hl, c, hc => by
    have hll : ∀ d, l.getLast? = some d → jsWhitespace d = false := by
      intro d hd
      apply hl
      cases l with
      | nil => simp at hd
      | cons x xs => exact hd
    simp only [collapseWSGo] at hc
    by_cases hws : jsWhitespace a = true
    · rw [if_pos hws] at hc
      cases hrec : collapseWSGo true l with
      | nil =>
        have hlast : ∃ d, (a :: l).getLast? = some d ∧ jsWhitespace d = true := by
          cases hl0 : l with
          | nil => exact ⟨a, by simp, hws⟩
          | cons x xs =>
            obtain ⟨d, hd⟩ : ∃ d, (x :: xs).getLast? = some d := by
              cases hgl : (x :: xs).getLast? with
              | none => exact absurd (List.getLast?_eq_none_iff.mp hgl) (by simp)
              | some d => exact ⟨d, rfl⟩
            refine ⟨d, by exact hd, ?_⟩
            exact collapseWSGo_true_all_ws l hrec d
              (by rw [hl0]; exact List.mem_of_mem_getLast? hd)
        obtain ⟨d, hd1, hd2⟩ := hlast
        have hdf := hl d hd1
        rw [hdf] at hd2
        exact absurd hd2 (by decide)
      | cons r rs =>
        rw [hrec, List.getLast?_append_of_ne_nil _ (by simp)] at hc
        exact collapseWSGo_noTrail l true hll c (by rw [hrec]; exact hc)
    · rw [if_neg hws] at hc
      cases hrec : collapseWSGo false l with
      | nil =>
        rw [hrec] at hc
        simp at hc
        subst hc
        simpa using hws
      | cons r rs =>
        rw [hrec] at hc
        exact collapseWSGo_noTrail l false hll c (by rw [hrec]; exact hc)

/-- C10: `normalizeTextInput` always produces a single line with no
surrounding whitespace: its output is already fixed by the trim and the
whitespace-run collapse (the final `/[\r\n]+/` replacement never matches),
it contains no line feed or carriage return, and neither its first nor its
last character is whitespace. -/
theorem normalizeTextInput_single_line (text : String) :
    (normalizeTextInput text).toList = collapseWS (trimList text.toList) ∧
    (∀ c ∈ (normalizeTextInput text).toList, ¬(c = '\n' ∨ c = '\r')) ∧
    (∀ c, (normalizeTextInput text).toList.head? = some c → jsWhitespace c = false) ∧
    (∀ c, (normalizeTextInput text).toList.getLast? = some c → jsWhitespace c = false) := by
  have hnocrlf : ∀ c ∈ collapseWS (trimList text.toList), ¬(c = '\r' ∨ c = '\n') := by
    intro c hc hor
    rcases collapseWSGo_mem _ false c hc with h1 | h2
    · cases hor with
      | inl h => rw [h] at h1; exact absurd h1 (by decide)
      | inr h => rw [h] at h1; exact absurd h1 (by decide)
    · cases hor with
      | inl h => rw [h] at h2; exact absurd h2 (by decide)
      | inr h => rw [h] at h2; exact absurd h2 (by decide)
  have hid : collapseCRLF (collapseWS (trimList text.toList)) =
      collapseWS (trimList text.toList) :=
    collapseCRLFGo_id _ false hnocrlf
  have hlist : (normalizeTextInput text).toList = collapseWS (trimList text.toList) := by
    unfold normalizeTextInput
    rw [hid]
    rfl
  refine ⟨hlist, ?_, ?_, ?_⟩
  · rw [hlist]
    exact fun c hc hor => hnocrlf c hc hor.symm
  · intro c hc
    rw [hlist] at hc
    cases ht : (trimList text.toList).head? with
    | none =>
      have hemp : trimList text.toList = [] := by
        cases htl : trimList text.toList with
        | nil => rfl
        | cons x xs => rw [htl] at ht; simp at ht
      rw [hemp] at hc
      simp [collapseWS, collapseWSGo] at hc
    | some a =>
      have ha := trimList_head text.toList a ht
      have hh := collapseWSGo_head _ a ht ha
      unfold collapseWS at hc
      rw [hh] at hc
      injection hc with hc
      subst hc
      exact ha
  · intro c hc
    rw [hlist] at hc
    exact collapseWSGo_noTrail _ false
      (fun d hd => trimList_getLast text.toList d hd) c hc
